import Mathlib

/-!
Shallow embedding of the HTTP/1.1 server at github.com/noelw19/HTTP-Server.

Byte sequences are modelled as `List Char` (the sources only ever treat the
stream as ASCII text: request lines, header lines, decimal digits).  Go maps
from string keys are modelled as association lists in insertion order; Go's
map iteration order is unspecified, the model fixes insertion order.  Go
`string` values are `List Char` as well.  Fallible operations return sum
types; a Go runtime panic (index out of range) is an explicit constructor.

Sources embedded below:
  src/internal/headers/headers.go       (Headers and its operations)
  src/internal/request/request.go       (Request, parseRequestLine, parse, RequestFromReader)
  src/internal/response/utils.go        (Writer state machine, chunked writes)
  src/internal/handler/handlers.go      (Handlers.MatchWithVars, Handlers.Add)
  src/internal/server/server.go         (Server.handle dispatch, HandlerError.Write)
-/

/-- Byte sequences / Go strings. -/
abbrev Str := List Char

/-- The two-byte line terminator `"\r\n"` (request.go `SEPARATOR`, headers.go `CRLF`). -/
def CRLF : Str := ['\r', '\n']

/-- Index of the first occurrence of CRLF in a byte sequence,
`bytes.Index(req, SEPARATOR)`; `none` models the Go result `-1`.
`bytes.Contains(data, CRLF)` is `(findCRLF data).isSome`. -/
def findCRLF : Str → Option Nat
  | [] => none
  | [_] => none
  | a :: b :: rest =>
    if a = '\r' ∧ b = '\n' then some 0
    else (findCRLF (b :: rest)).map (· + 1)

/-- `bytes.Split(s, sep)` for a one-byte separator: the list of maximal
separator-free segments (always non-empty). -/
def splitOnChar (sep : Char) : Str → List Str
  | [] => [[]]
  | c :: rest =>
    if c = sep then [] :: splitOnChar sep rest
    else
      match splitOnChar sep rest with
      | s :: ss => (c :: s) :: ss
      | [] => [[c]]

/-- `strings.ToLower` (the sources only feed ASCII header names/values). -/
def toLowerStr (s : Str) : Str := s.map Char.toLower

/-- `strings.ToUpper` (ASCII). -/
def toUpperStr (s : Str) : Str := s.map Char.toUpper

/-- `strings.Trim(s, " ")`: strip leading and trailing spaces. -/
def trimSpaces (s : Str) : Str :=
  ((s.dropWhile (· = ' ')).reverse.dropWhile (· = ' ')).reverse

/-- `strings.Trim(s, cutset)` for the one-character cutset used by
`matchDynamicRoute` (`strings.Trim(pattern, "/")`). -/
def trimChar (cut : Char) (s : Str) : Str :=
  ((s.dropWhile (· = cut)).reverse.dropWhile (· = cut)).reverse

/-- Decimal digit test for `strconv.Atoi`. -/
def isDigitChar (c : Char) : Bool := '0' ≤ c ∧ c ≤ '9'

/-- Value of an all-digit run, accumulator style. -/
def digitsValGo (acc : Nat) : Str → Option Nat
  | [] => some acc
  | c :: rest =>
    if isDigitChar c then digitsValGo (acc * 10 + (c.toNat - 48)) rest
    else none

/-- Value of a non-empty all-digit string; `none` on empty input or any
non-digit. -/
def digitsVal : Str → Option Nat
  | [] => none
  | c :: rest => digitsValGo 0 (c :: rest)

/-- `strconv.Atoi`: optional sign then decimal digits.  (The 64-bit overflow
rejection of the Go function is not modelled; the sources only parse header
values whose magnitude is irrelevant to the claims.) -/
def atoi : Str → Option Int
  | [] => none
  | '+' :: rest => (digitsVal rest).map Int.ofNat
  | '-' :: rest => (digitsVal rest).map (fun v => -(v : Int))
  | s => (digitsVal s).map Int.ofNat

/-- Decimal digit character. -/
def digitChar (d : Nat) : Char := Char.ofNat (48 + d)

/-- Helper for `natChars`: prepend the decimal digits of `n` (fuel-indexed;
`n + 1` fuel always suffices since a number has at most `n + 1` digits). -/
def natCharsAux : Nat → Nat → Str → Str
  | 0, _, acc => acc
  | fuel + 1, n, acc =>
    let acc1 := digitChar (n % 10) :: acc
    if n < 10 then acc1 else natCharsAux fuel (n / 10) acc1

/-- `fmt.Sprintf("%d", n)` for a non-negative count: decimal digits. -/
def natChars (n : Nat) : Str := natCharsAux (n + 1) n []

/-- Hexadecimal digit character (lower case, as `strconv.FormatInt(_, 16)`). -/
def hexDigitChar (d : Nat) : Char :=
  if d < 10 then Char.ofNat (48 + d) else Char.ofNat (87 + d)

/-- Helper for `natHexChars` (fuel-indexed like `natCharsAux`). -/
def natHexCharsAux : Nat → Nat → Str → Str
  | 0, _, acc => acc
  | fuel + 1, n, acc =>
    let acc1 := hexDigitChar (n % 16) :: acc
    if n < 16 then acc1 else natHexCharsAux fuel (n / 16) acc1

/-- `strconv.FormatInt(int64(n), 16)` for a non-negative length. -/
def natHexChars (n : Nat) : Str := natHexCharsAux (n + 1) n []

/-- `bytes.Contains(l, pat)` / `strings.Contains`: substring occurrence. -/
def containsSub (l pat : Str) : Bool :=
  pat.isPrefixOf l ||
    match l with
    | [] => false
    | _ :: rest => containsSub rest pat

/-- `strings.Contains(s, string(c))` for a one-character pattern. -/
def containsChar (s : Str) (c : Char) : Bool := s.contains c

/-! ## headers.go: the Headers container -/

/-- `type Headers map[string]string`, modelled as an association list in
insertion order (Go map iteration order is unspecified; no claim depends on
it). -/
abbrev Headers := List (Str × Str)

/-- `NewHeaders()`. -/
def NewHeaders : Headers := []

/-- Raw map lookup `h[k]` as an `Option` (present even when the value is empty). -/
def assocFind (h : Headers) (k : Str) : Option Str :=
  match h with
  | [] => none
  | (k', v) :: rest => if k' = k then some v else assocFind rest k

/-- Raw map store `h[k] = v`: replace in place, else append. -/
def assocStore (h : Headers) (k v : Str) : Headers :=
  match h with
  | [] => [(k, v)]
  | (k', v') :: rest =>
    if k' = k then (k, v) :: rest else (k', v') :: assocStore rest k v

/-- `Headers.Get`: `h[strings.ToLower(key)]`, empty string when absent. -/
def Headers.Get (h : Headers) (key : Str) : Str :=
  match assocFind h (toLowerStr key) with
  | some v => v
  | none => []

/-- `Headers.Set`: store when `Get` is empty, otherwise join with `", "`. -/
def Headers.Set (h : Headers) (key value : Str) : Headers :=
  if h.Get key = [] then assocStore h (toLowerStr key) value
  else assocStore h (toLowerStr key) (h.Get key ++ (", ".toList) ++ value)

/-- `Headers.Replace`: unconditional store under the lower-cased key. -/
def Headers.Replace (h : Headers) (key value : Str) : Headers :=
  assocStore h (toLowerStr key) value

/-- `Headers.Delete`. -/
def Headers.Delete (h : Headers) (key : Str) : Headers :=
  h.filter (fun kv => kv.1 ≠ toLowerStr key)

/-- `Headers.HasContentLength`: `strconv.Atoi` of the `content-length` value;
on failure, `transfer-encoding: chunked` still counts as present with length 0. -/
def Headers.HasContentLength (h : Headers) : Int × Bool :=
  let cl := h.Get ("content-length".toList)
  let te := h.Get ("transfer-encoding".toList)
  match atoi cl with
  | none => if te = "chunked".toList then (0, true) else (0, false)
  | some lengthInt => (lengthInt, true)

/-- The header-name character class of headers.go's `numberRegexp`,
`[a-zA-Z0-9!#$%&'*+-.^_|~`]` — note `+-.` is a range, so `,` is included
and the apostrophe and backtick characters (codes 39 and 96) are members. -/
def tokenChar (c : Char) : Bool :=
  ('a' ≤ c ∧ c ≤ 'z') ∨ ('A' ≤ c ∧ c ≤ 'Z') ∨ ('0' ≤ c ∧ c ≤ '9') ∨
    c = '!' ∨ c = '#' ∨ c = '$' ∨ c = '%' ∨ c = '&' ∨ c = Char.ofNat 39 ∨
    c = '*' ∨ ('+' ≤ c ∧ c ≤ '.') ∨ c = '^' ∨ c = '_' ∨ c = '|' ∨ c = '~' ∨
    c = Char.ofNat 96

/-- `numberRegexp.Match(before)`: `^[...]+$`, a non-empty run of token chars. -/
def tokenMatch (s : Str) : Bool := ¬ s.isEmpty ∧ s.all tokenChar

/-- `bytes.Cut(header, []byte(":"))`: split at the first colon;
`none` models `ok == false` (no colon present). -/
def cutColon : Str → Option (Str × Str)
  | [] => none
  | c :: rest =>
    if c = ':' then some ([], rest)
    else (cutColon rest).map (fun p => (c :: p.1, p.2))

/-- Result of `Headers.Parse` — `(n, done, err)` in the Go signature.
`incomplete` is `(0, false, nil)`; `sectionDone` is `(len(CRLF), true, nil)`;
`consumed` carries the updated container and the bytes read of one header
line; `invalid` is `ErrInvalidHeader` (the accompanying byte count is
discarded by every caller). -/
inductive HParseRes
  | incomplete
  | sectionDone
  | consumed (h : Headers) (n : Nat)
  | invalid
deriving DecidableEq

/-- `Headers.Parse`: consume one physical header line (or the blank line that
ends the header section) from the front of `data`. -/
def Headers.Parse (h : Headers) (data : Str) : HParseRes :=
  match findCRLF data with
  | none => .incomplete
  | some idx =>
    if data.take 2 = CRLF then .sectionDone
    else
      -- bytes.Split(data, CRLF)[0] is the prefix before the first CRLF
      let header := data.take idx
      let read := header.length + 2
      match cutColon header with
      | none => .invalid
      | some (before, after) =>
        if ¬ tokenMatch before then .invalid
        else
          -- key[len(key)-1] == " ": unreachable after the regexp check
          -- (a space is not a token char), kept for fidelity
          match before.getLast? with
          | none => .invalid
          | some lastc =>
            if lastc = ' ' then .invalid
            else
              let key := toLowerStr (trimSpaces before)
              let value := trimSpaces after
              let h' :=
                if (assocFind h key).isSome then
                  h.Set key (h.Get key ++ (", ".toList) ++ value)
                else h.Set key value
              .consumed h' read

/-! ## request.go: request line, query parameters, incremental parser -/

/-- `type RequestLine struct` (field order as in the source). -/
structure RequestLine where
  httpVersion : Str
  requestTarget : Str
  method : Str
deriving DecidableEq

/-- `parserState` (Go string constants; modelled as an enum). -/
inductive parserState
  | parserInit
  | parserDone
  | parserHeaders
  | parserBody
deriving DecidableEq

/-- `type Request struct` (Vars and Params are maps string→string, modelled
as insertion-ordered association lists). -/
structure Request where
  requestLine : RequestLine
  state : parserState
  headers : Headers
  body : Str
  vars : List (Str × Str)
  params : List (Str × Str)
deriving DecidableEq

/-- `newRequest()`: zero-valued RequestLine, `initialised` state, fresh maps. -/
def newRequest : Request :=
  { requestLine := ⟨[], [], []⟩
    state := .parserInit
    headers := NewHeaders
    body := []
    vars := []
    params := [] }

/-- Result of `parseRequestLine` — `(*RequestLine, int, error)`.
`incomplete` is `(nil, 0, nil)` (no CRLF yet); `badStartLine` is
`ErrBadStartLine` (the accompanying int is discarded by the caller);
`panicked` marks the Go runtime panic `index out of range` on
`httpParts[1]` when the version token contains no `/`. -/
inductive RLineRes
  | incomplete
  | badStartLine
  | panicked
  | ok (rl : RequestLine) (read : Nat)
deriving DecidableEq

/-- `parseRequestLine(req)`: find the first CRLF, split the start line on
single spaces into exactly 3 tokens, then run the version check
`method != ToUpper(method) && httpParts[0] != "HTTP" && httpParts[1] != "1.1"`
(left-to-right with short-circuit; `httpParts[1]` panics when the third token
has no slash).  On success the RequestLine is built — evaluating
`httpParts[1]` again. -/
def parseRequestLine (req : Str) : RLineRes :=
  match findCRLF req with
  | none => .incomplete
  | some idx =>
    let startLine := req.take idx
    let read := idx + 2
    match splitOnChar ' ' startLine with
    | [method, target, verTok] =>
      let httpParts := splitOnChar '/' verTok
      let capMethod := toUpperStr method
      let mkOk : RLineRes :=
        match httpParts[1]? with
        | none => .panicked
        | some p1 => .ok ⟨p1, target, method⟩ read
      if method ≠ capMethod ∧ httpParts.headI ≠ "HTTP".toList then
        match httpParts[1]? with
        | none => .panicked
        | some p1 => if p1 ≠ "1.1".toList then .badStartLine else mkOk
      else mkOk
    | _ => .badStartLine

/-- Hexadecimal digit test (`ishex` in net/url). -/
def isHexChar (c : Char) : Bool :=
  ('0' ≤ c ∧ c ≤ '9') ∨ ('a' ≤ c ∧ c ≤ 'f') ∨ ('A' ≤ c ∧ c ≤ 'F')

/-- Hexadecimal digit value (`unhex` in net/url). -/
def hexVal (c : Char) : Nat :=
  if '0' ≤ c ∧ c ≤ '9' then c.toNat - 48
  else if 'a' ≤ c ∧ c ≤ 'f' then c.toNat - 87
  else if 'A' ≤ c ∧ c ≤ 'F' then c.toNat - 55
  else 0

/-- `url.QueryUnescape`: percent-decoding with `+` as space; `none` models a
decoding error (truncated or non-hex escape). -/
def queryUnescape : Str → Option Str
  | [] => some []
  | '%' :: a :: b :: rest =>
    if isHexChar a ∧ isHexChar b then
      (queryUnescape rest).map
        (fun tail => Char.ofNat (16 * hexVal a + hexVal b) :: tail)
    else none
  | '%' :: _ => none
  | '+' :: rest => (queryUnescape rest).map (fun tail => ' ' :: tail)
  | c :: rest => (queryUnescape rest).map (fun tail => c :: tail)

/-- `strings.Cut(s, string(c))`: the part before the first `c`, the part
after, and whether `c` occurred. -/
def cutChar (c : Char) : Str → (Str × Str × Bool)
  | [] => ([], [], false)
  | x :: rest =>
    if x = c then ([], rest, true)
    else
      let (b, a, f) := cutChar c rest
      (x :: b, a, f)

/-- The `url.ParseQuery` loop: iterated `strings.Cut(query, "&")` visits
exactly the `&`-separated segments left to right; each segment contributes a
`(key, value)` occurrence, and semicolon separators, empty segments and bad
escapes behave as in the source (error flag set / segment skipped). -/
def parseQueryGo (query : Str) : List (Str × Str) × Bool :=
  (splitOnChar '&' query).foldr
    (fun pair acc =>
      if containsChar pair ';' then (acc.1, true)
      else if pair.isEmpty then acc
      else
        let (k, v, _) := cutChar '=' pair
        match queryUnescape k, queryUnescape v with
        | some k', some v' => ((k', v') :: acc.1, acc.2)
        | _, _ => (acc.1, true))
    ([], false)

/-- `url.ParseQuery(queryString)` as consumed by `parseParams`: the set of
keys with, for each, the last value of its occurrence list (`val[len(val)-1]`),
or no parameters at all when the accumulated error is non-nil. -/
def parseParamsInto (params : List (Str × Str)) (target : Str) : List (Str × Str) :=
  let (_, rest, found) := cutChar '?' target
  if ¬ found then params
  else if rest.isEmpty then params
  else
    let (pairs, err) := parseQueryGo rest
    if err then params
    else pairs.foldl (fun acc (kv : Str × Str) => assocStore acc kv.1 kv.2) params

/-- `Request.Path()`: the request target up to (excluding) the first `?`. -/
def Request.Path (r : Request) : Str :=
  (cutChar '?' r.requestLine.requestTarget).1

/-- Parse errors (`ErrBadStartLine`, `ErrInvalidHeader`, the content-length
mismatch error of `parseBody`). -/
inductive PErr
  | badStartLine
  | invalidHeaderLine
  | bodyLengthMismatch
deriving DecidableEq

/-- Result of `Request.parseBody` — `(int, error)` plus the mutated receiver. -/
inductive BodyRes
  | ok (n : Nat) (r : Request)
  | mismatch
deriving DecidableEq

/-- `Request.parseBody(data)`: empty `content-length` ⇒ state becomes done;
`HasContentLength` absent ⇒ consume nothing; a length different from
`len(data)` ⇒ mismatch error; else capture the body. -/
def Request.parseBody (r : Request) (data : Str) : BodyRes :=
  let cl := r.headers.Get ("content-length".toList)
  let r1 := if cl = [] then { r with state := .parserDone } else r
  match r1.headers.HasContentLength with
  | (_, false) => .ok 0 r1
  | (clength, true) =>
    if clength ≠ (data.length : Int) then .mismatch
    else .ok data.length { r1 with body := data }

/-- One iteration of the `switch r.state` loop inside `Request.parse`,
acting on the not-yet-consumed suffix of the buffer.  `brk` is `break outer`
(zero bytes consumed this iteration, with any receiver mutation that happened
before the break); `cont` consumed `n` bytes and continues the loop. -/
inductive StepRes
  | brk (r : Request)
  | cont (n : Nat) (r : Request)
  | fail (e : PErr)
  | panicked
deriving DecidableEq

/-- One `switch` dispatch of `Request.parse` on the remaining buffer. -/
def parseStep (r : Request) (rest : Str) : StepRes :=
  match r.state with
  | .parserInit =>
    match parseRequestLine rest with
    | .incomplete => .brk r
    | .badStartLine => .fail .badStartLine
    | .panicked => .panicked
    | .ok rl n =>
      .cont n { r with
        requestLine := rl
        params := parseParamsInto r.params rl.requestTarget
        state := .parserHeaders }
  | .parserHeaders =>
    match r.headers.Parse rest with
    | .incomplete => .brk r
    | .invalid => .fail .invalidHeaderLine
    | .sectionDone => .cont 2 { r with state := .parserBody }
    | .consumed h' n => .cont n { r with headers := h' }
  | .parserBody =>
    match r.parseBody rest with
    | .mismatch => .fail .bodyLengthMismatch
    | .ok n r1 =>
      if n = 0 then .brk r1
      else .cont n { r1 with state := .parserDone }
  | .parserDone => .brk r

/-- Result of `Request.parse` — `(int, error)` plus the mutated receiver. -/
inductive PRes
  | ok (n : Nat) (r : Request)
  | fail (e : PErr)
  | panicked
  | fuelOut
deriving DecidableEq

/-- The `for { switch ... } ` loop of `Request.parse`, fuel-indexed (each
continuing iteration consumes at least one byte, so `data.length + 1` fuel
is always enough — proved below). -/
def parseLoopF : Nat → Request → Str → PRes
  | 0, _, _ => .fuelOut
  | fuel + 1, r, rest =>
    match parseStep r rest with
    | .brk r' => .ok 0 r'
    | .fail e => .fail e
    | .panicked => .panicked
    | .cont n r' =>
      match parseLoopF fuel r' (rest.drop n) with
      | .ok m r'' => .ok (n + m) r''
      | other => other

/-- `Request.parse(data)`: run the state-machine loop on the whole buffer,
returning the total bytes consumed and the updated request. -/
def Request.parse (r : Request) (data : Str) : PRes :=
  parseLoopF (data.length + 1) r data

/-- `Request.done()`. -/
def Request.done (r : Request) : Bool := r.state = .parserDone

/-! ## request.go: RequestFromReader -/

/-- Terminal outcome of `RequestFromReader`. -/
inductive RfrRes
  | ok (r : Request)
  | fail (e : PErr)
  | panicked
deriving DecidableEq

/-- The read-and-parse loop of `RequestFromReader` over a `bytes.Reader`-style
source (`Read` hands out `min(space, len(remaining))` bytes while data
remains, and reports EOF only once the source is exhausted — even into an
empty slice it returns `(0, nil)` while data remains).  The 1024-byte buffer
is `buf`; `remaining` is the unread part of the stream.  Fuel-indexed:
`none` means the loop is still running after `fuel` iterations. -/
def rfr : Nat → Str → Str → Request → Option RfrRes
  | 0, _, _, _ => none
  | fuel + 1, remaining, buf, req =>
    if req.done then some (.ok req)
    else
      if remaining.isEmpty then
        -- Read returns (0, io.EOF): request.state = parserDone, then parse
        let req1 := { req with state := .parserDone }
        match req1.parse buf with
        | .fail e => some (.fail e)
        | .panicked => some .panicked
        | .fuelOut => some .panicked
        | .ok readN req2 => rfr fuel remaining (buf.drop readN) req2
      else
        let space := 1024 - buf.length
        let n := min space remaining.length
        let buf1 := buf ++ remaining.take n
        let rem1 := remaining.drop n
        match req.parse buf1 with
        | .fail e => some (.fail e)
        | .panicked => some .panicked
        | .fuelOut => some .panicked
        | .ok readN req2 => rfr fuel rem1 (buf1.drop readN) req2

/-- `RequestFromReader(reader)` for a finite stream `input`, run with the
given iteration budget. -/
def RequestFromReader (fuel : Nat) (input : Str) : Option RfrRes :=
  rfr fuel input [] newRequest

/-! ## Chunked delivery of a byte sequence to Request.parse -/

/-- Outcome of delivering a chunk sequence to `Request.parse`. -/
inductive FeedRes
  | ok (r : Request) (pending : Str)
  | fail (e : PErr)
  | panicked
deriving DecidableEq

/-- Deliver `chunks` one `Request.parse` call at a time, re-offering the
unconsumed bytes (`pending`) together with each new chunk — the incremental
delivery discipline of the specification's chunk-size-independence property. -/
def feedChunks : List Str → Request → Str → FeedRes
  | [], r, pending => .ok r pending
  | c :: cs, r, pending =>
    match r.parse (pending ++ c) with
    | .ok n r' => feedChunks cs r' ((pending ++ c).drop n)
    | .fail e => .fail e
    | .panicked => .panicked
    | .fuelOut => .panicked

/-- A request without a body in the sense of parseBody: the parsed headers
carry no content-length and no transfer-encoding value. -/
def noBody (h : Headers) : Prop :=
  h.Get ("content-length".toList) = [] ∧ h.Get ("transfer-encoding".toList) = []

/-! ## response/utils.go: the response writer state machine -/

/-- `writerState` (Go int constants 1–4; the Lean type is capitalised to avoid
clashing with the struct field of the same name). -/
inductive WriterState
  | writerStateNotStarted
  | writerStateStatusLine
  | writerStateHeaders
  | writerStateBody
deriving DecidableEq

/-- Out-of-order-write error carrying current and expected state
(`"you have executed the writers in the wrong order: current: %d, expected: %d"`). -/
structure WrongOrderErr where
  current : WriterState
  expected : WriterState
deriving DecidableEq

/-- `type Writer struct`: the output sink (`io.Writer`) is modelled as the
byte sequence written so far; the sink itself never errors in the model. -/
structure response.Writer where
  out : Str
  writerState : WriterState
deriving DecidableEq

/-- `NewResponseWriter(w)`. -/
def NewResponseWriter : response.Writer :=
  { out := [], writerState := .writerStateNotStarted }

/-- `response.Writer.isCorrectState(expected)`. -/
def response.Writer.isCorrectState (w : response.Writer) (expected : WriterState) : Option WrongOrderErr :=
  if expected = w.writerState then none
  else some ⟨w.writerState, expected⟩

/-- Modelled from the spec: the status-code → reason-phrase table
(`GetStatusReason`, consulted by `response.Writer.WriteStatusLine`) is in a response
package file absent from src/.  The spec (§6) requires it to cover at least
200, 400, 404, 405 and 500, and the README documents the status line
`HTTP/1.1 200 OK`. -/
def GetStatusReason (statusCode : Nat) : Str :=
  if statusCode = 200 then "OK".toList
  else if statusCode = 400 then "Bad Request".toList
  else if statusCode = 404 then "Not Found".toList
  else if statusCode = 405 then "Method Not Allowed".toList
  else if statusCode = 500 then "Internal Server Error".toList
  else []

/-- `response.Writer.WriteStatusLine(statusCode)`: requires `notStarted`; writes
`"HTTP/1.1 <code> <reason>\r\n"` and advances the state. -/
def response.Writer.WriteStatusLine (w : response.Writer) (statusCode : Nat) : response.Writer × Option WrongOrderErr :=
  match w.isCorrectState .writerStateNotStarted with
  | some e => (w, some e)
  | none =>
    let statusLine :=
      "HTTP/1.1 ".toList ++ natChars statusCode ++ [' '] ++
        GetStatusReason statusCode ++ CRLF
    ({ out := w.out ++ statusLine, writerState := .writerStateStatusLine }, none)

/-- `GetDefaultHeaders(contentLen)`. -/
def GetDefaultHeaders (contentLen : Nat) : Headers :=
  ((NewHeaders.Set ("content-length".toList) (natChars contentLen)).Set
      ("Connection".toList) ("close".toList)).Set
    ("Content-Type".toList) ("text/plain".toList)

/-- `response.Writer.WriteHeaders(headers)`: requires `statusLineWritten`; computes
`hasBody` from the given headers, substitutes `GetDefaultHeaders(0)` when the
container is empty, writes each `"name:value\r\n"` line (model: insertion
order), then one extra `"\r\n"` only when `hasBody`, and advances the state. -/
def response.Writer.WriteHeaders (w : response.Writer) (headers : Headers) : response.Writer × Option WrongOrderErr :=
  match w.isCorrectState .writerStateStatusLine with
  | some e => (w, some e)
  | none =>
    let hasBody := headers.HasContentLength.2
    let headers := if headers.length = 0 then GetDefaultHeaders 0 else headers
    let lines :=
      (headers.map (fun kv => kv.1 ++ [':'] ++ headers.Get kv.1 ++ CRLF)).flatten
    let out1 := w.out ++ lines ++ (if hasBody then CRLF else [])
    ({ out := out1, writerState := .writerStateHeaders }, none)

/-- `response.Writer.WriteBody(p)`: requires `headersWritten`; writes the body bytes
followed by one terminator and advances the state.  (The returned byte count
is not consumed by any claim and is omitted.) -/
def response.Writer.WriteBody (w : response.Writer) (p : Str) : response.Writer × Option WrongOrderErr :=
  match w.isCorrectState .writerStateHeaders with
  | some e => (w, some e)
  | none =>
    ({ out := w.out ++ p ++ CRLF, writerState := .writerStateBody }, none)

/-- `isHTML(body)`: both `<html>` and `</html>` occur. -/
def isHTML (body : Str) : Bool :=
  containsSub body ("<html>".toList) ∧ containsSub body ("</html>".toList)

/-- `response.Writer.Respond(status, h, body)`: WriteStatusLine, overwrite
content-length from `len(body)` (and content-type when `isHTML`), then
WriteHeaders and WriteBody; every error path merely logs and returns. -/
def response.Writer.Respond (w : response.Writer) (status : Nat) (h : Headers) (body : Str) : response.Writer :=
  let (w1, e1) := w.WriteStatusLine status
  match e1 with
  | some _ => w1
  | none =>
    let h1 := h.Replace ("content-length".toList) (natChars body.length)
    let h2 := if isHTML body then h1.Replace ("content-type".toList) ("text/html".toList) else h1
    let (w2, e2) := w1.WriteHeaders h2
    match e2 with
    | some _ => w2
    | none => (w2.WriteBody body).1

/-- `response.Writer.WriteChunkedBody(p)`: no state check — writes the chunk length in
hexadecimal plus terminator, then the chunk bytes plus terminator
(`fmt.Appendf(p, "\r\n")`), and returns the byte count; the writer state is
untouched. -/
def response.Writer.WriteChunkedBody (w : response.Writer) (p : Str) : response.Writer × Nat :=
  let lengthStr := natHexChars p.length
  let w1 := { w with out := w.out ++ lengthStr ++ CRLF }
  let w2 := { w1 with out := w1.out ++ p ++ CRLF }
  ((w2 : response.Writer), (lengthStr ++ CRLF).length + (p ++ CRLF).length)

/-- `response.Writer.WriteTrailers(trailers)`: one `"name:value\r\n"` line per trailer. -/
def response.Writer.WriteTrailers (w : response.Writer) (trailers : Headers) : response.Writer :=
  { w with
    out := w.out ++
      (trailers.map (fun kv => kv.1 ++ [':'] ++ trailers.Get kv.1 ++ CRLF)).flatten }

/-- `response.Writer.WriteChunkedBodyDone(trailers)`: no state check — writes the
terminating `"0\r\n"`, the trailers when non-empty, then the final blank
line; returns 0 as the source does; the writer state is untouched. -/
def response.Writer.WriteChunkedBodyDone (w : response.Writer) (trailers : Headers) : response.Writer × Nat :=
  let w1 := { w with out := w.out ++ "0".toList ++ CRLF }
  let w2 := if trailers.length > 0 then w1.WriteTrailers trailers else w1
  ({ w2 with out := w2.out ++ CRLF }, 0)

/-! ## handler/handlers.go and handler/handler.go: the router -/

/-- Handler functions are opaque user code; modelled by an identifier. -/
abbrev HandlerId := Nat

/-- `type Handler struct` (the `route`, `AllowedMethods`, `Vars`, `Params`
and middleware fields are never read by the modelled operations and are
omitted). -/
structure handler.Handler where
  methodFuncs : List (Str × HandlerId)
  handleFunc : Option HandlerId
deriving DecidableEq

/-- `type Handlers map[string]*Handler` in insertion order. -/
abbrev handler.Handlers := List (Str × handler.Handler)

/-- `MatchResult{Handler, Vars}`. -/
structure handler.MatchResult where
  handler : HandlerId
  vars : List (Str × Str)
deriving DecidableEq

/-- The two error values `MatchWithVars` can create. -/
inductive MatchErr
  | emptyRoute
  | noMatch
deriving DecidableEq

/-- `err.Error()` for the router's errors — the strings built by
`fmt.Errorf` in `MatchWithVars`. -/
def matchErrMessage : MatchErr → Str
  | .emptyRoute => "Empty route when trying to match".toList
  | .noMatch => "No route match found".toList

/-- `(*MatchResult, error)`. -/
inductive MatchOut
  | found (m : handler.MatchResult)
  | failure (e : MatchErr)
deriving DecidableEq

/-- `matchDynamicRoute(pattern, actualRoute)`: segment-wise match of a
pattern with `\x7bname\x7d` parameter segments, returning the accumulated
variables and the match flag. -/
def matchDynamicRoute (pattern actualRoute : Str) : List (Str × Str) × Bool :=
  let patternParts := splitOnChar '/' (trimChar '/' pattern)
  let actualParts := splitOnChar '/' (trimChar '/' actualRoute)
  if patternParts.length ≠ actualParts.length then ([], false)
  else go (patternParts.zip actualParts) []
where
  go : List (Str × Str) → List (Str × Str) → List (Str × Str) × Bool
  | [], vars => (vars, true)
  | (patternPart, actualPart) :: rest, vars =>
    if ('{' :: []).isPrefixOf patternPart ∧ patternPart.getLast? = some '}' then
      let paramName := (patternPart.drop 1).dropLast
      if paramName = [] then (vars, false)
      else go rest (assocStore vars paramName actualPart)
    else if patternPart ≠ actualPart then (vars, false)
    else go rest vars

/-- The method / fall-back selection shared by the static and dynamic
branches of `MatchWithVars`: a method-specific handler when the request
method is among the registered method keys, else the general `HandleFunc`
when non-nil. -/
def selectHandler (hd : handler.Handler) (method : Str) (vars : List (Str × Str)) :
    Option handler.MatchResult :=
  match hd.methodFuncs.lookup method with
  | some hf => some ⟨hf, vars⟩
  | none => hd.handleFunc.map (fun hf => ⟨hf, vars⟩)

/-- The dynamic-route scan of `MatchWithVars` (its second loop): skip routes
without `\x7b`, try `matchDynamicRoute`, then the method / fall-back
selection; a miss falls through to the next route. -/
def dynamicScan (hs : handler.Handlers) (route method : Str) : MatchOut :=
  match hs with
  | [] => .failure .noMatch
  | (routePath, hd) :: rest =>
    if ¬ containsChar routePath '{' then dynamicScan rest route method
    else
      let (vars, matched) := matchDynamicRoute routePath route
      if matched then
        match selectHandler hd method vars with
        | some m => .found m
        | none => dynamicScan rest route method
      else dynamicScan rest route method

/-- `Handlers.MatchWithVars(route, method)`: empty-route error, then the
static (exact-key) branch with method / fall-back selection, then the
dynamic scan, then `"No route match found"`. -/
def handler.Handlers.MatchWithVars (hs : handler.Handlers) (route method : Str) : MatchOut :=
  if route = [] then .failure .emptyRoute
  else
    match hs.lookup route with
    | some hd =>
      match selectHandler hd method [] with
      | some m => .found m
      | none => dynamicScan hs route method
    | none => dynamicScan hs route method

/-- `Handlers.Add(route, hf)`: panics on an empty route (`none`); updates the
stored handler's `HandleFunc` when the route exists, else inserts a fresh
handler with only `HandleFunc` set. -/
def handler.Handlers.Add (hs : handler.Handlers) (route : Str) (hf : HandlerId) :
    Option handler.Handlers :=
  if route = [] then none
  else
    match hs.lookup route with
    | some hd => some (mapStore hs route { hd with handleFunc := some hf })
    | none => some (hs ++ [(route, { methodFuncs := [], handleFunc := some hf })])
where
  mapStore : handler.Handlers → Str → handler.Handler → handler.Handlers
  | [], k, v => [(k, v)]
  | (k', v') :: rest, k, v =>
    if k' = k then (k, v) :: rest else (k', v') :: mapStore rest k v

/-- The `(*Handler).GET()` builder: `h.MethodFuncs[GET] = h.HandleFunc` on
the handler stored under `route` (the Go builder mutates the shared struct
the map points to). -/
def handlersGET (hs : handler.Handlers) (route : Str) : handler.Handlers :=
  match hs.lookup route with
  | none => hs
  | some hd =>
    match hd.handleFunc with
    | none => hs
    | some hf =>
      handler.Handlers.Add.mapStore hs route
        { hd with methodFuncs := assocStoreH hd.methodFuncs ("GET".toList) hf }
where
  assocStoreH : List (Str × HandlerId) → Str → HandlerId → List (Str × HandlerId)
  | [], k, v => [(k, v)]
  | (k', v') :: rest, k, v =>
    if k' = k then (k, v) :: rest else (k', v') :: assocStoreH rest k v

/-! ## server/server.go: per-request dispatch of Server.handle -/

/-- `HandlerError.Write(w)`: `fmt.Fprintf(w, "HTTP/1.1 %d %s", code, msg)` —
the bytes of the minimal error line (no terminator, no headers). -/
def HandlerError.Write (statusCode : Nat) (message : Str) : Str :=
  "HTTP/1.1 ".toList ++ natChars statusCode ++ [' '] ++ message

/-- The static 405 page `respond405()`. -/
def respond405 : Str :=
  ("<html>\n  <head>\n    <title>405 Method Not Allowed</title>\n  </head>\n  <body>\n    <h1>Method Not Allowed</h1>\n    <p>That method is not allowed for this endpoint</p>\n  </body>\n</html>").toList

/-- The static 404 page `respond404()`. -/
def respond404 : Str :=
  ("<html>\n  <head>\n    <title>404 Not Found</title>\n  </head>\n  <body>\n    <h1>Not Found</h1>\n    <p>Could not find what you are looking for.</p>\n  </body>\n</html>").toList

/-- `defaultNotFoundHandler`: `w.Respond(404, NewHeaders(), respond404())`. -/
def defaultNotFoundHandler (w : response.Writer) (_req : Request) : response.Writer :=
  w.Respond 404 NewHeaders respond404

/-- What one iteration of the `for` loop in `Server.handle` receives from
`request.RequestFromReader`: a read timeout, end of stream / closed
connection, a parse (or other read) error, or a complete request. -/
inductive SessionEvent
  | readTimeout
  | readEOF
  | parseFailure (e : PErr)
  | request (req : Request)

/-- Loop decision after one iteration: `closeConn` models every `break` path
(they all reach the single `conn.Close()` after the loop); `nextRequest`
models resetting the read deadline and continuing the keep-alive loop. -/
inductive LoopDecision
  | closeConn
  | nextRequest
deriving DecidableEq

/-- `maps.Copy(req.Vars, matchResult.Vars)`. -/
def mergeVars (dst src : List (Str × Str)) : List (Str × Str) :=
  src.foldl (fun acc kv => assocStore acc kv.1 kv.2) dst

/-- One iteration of the keep-alive loop in `Server.handle`, given the event
produced by `request.RequestFromReader`.  Returns the bytes this iteration
writes to the connection and the loop decision.  `execOut` abstracts the
middleware/handler execution on a fresh `response.Writer` (external user
code); `notFoundOut` abstracts the configured not-found handler (defaults to
`defaultNotFoundHandler`).  Error paths only log (`fmt.Println`) and break:
no bytes reach the connection. -/
def handleIteration (hs : handler.Handlers)
    (notFoundOut : response.Writer → Request → response.Writer)
    (execOut : HandlerId → response.Writer → Request → response.Writer)
    (ev : SessionEvent) : Str × LoopDecision :=
  match ev with
  | .readTimeout => ([], .closeConn)
  | .readEOF => ([], .closeConn)
  | .parseFailure _ => ([], .closeConn)
  | .request req =>
    if req.requestLine.method = [] ∨ req.requestLine.requestTarget = [] then
      ([], .closeConn)
    else
      let connectionHeader := toLowerStr (req.headers.Get ("connection".toList))
      let shouldClose := connectionHeader = "close".toList
      let w := NewResponseWriter
      let path := req.Path
      let out :=
        match hs.MatchWithVars path req.requestLine.method with
        | .found matchResult =>
          (execOut matchResult.handler w
            { req with vars := mergeVars req.vars matchResult.vars }).out
        | .failure e =>
          if matchErrMessage e = "Method not allowed".toList then
            (w.Respond 405 (GetDefaultHeaders respond405.length) respond405).out
          else (notFoundOut w req).out
      (out, if shouldClose then .closeConn else .nextRequest)

/-! ## Theorems -/

/-- C4: A request line whose version token is a well-formed
`name/version` pair other than `HTTP/1.1` is accepted, because the check
`method != ToUpper(method) && httpParts[0] != "HTTP" && httpParts[1] != "1.1"`
joins its three sub-conditions with `&&`: with an upper-case method the whole
conjunction is false and the line passes untouched.  `GET / FTP/9.9` yields a
RequestLine with version `9.9` and no error — the claim says it must be
`BadStartLine`. -/
theorem c4_version_marker_not_enforced :
    parseRequestLine ("GET / FTP/9.9\r\n".toList) =
      .ok ⟨"9.9".toList, "/".toList, "GET".toList⟩ 15 := by
  decide

/-- C5: parsing two physical header lines with the same name double-joins the
old value: `Headers.Parse` passes `Get(key) + ", " + value` into `Set`, and
`Set` prepends the old value again, so after `A: v1` then `A: v2` the stored
value is `v1, v1, v2` — not the `v1, v2` that the claim (and the repo's own
`TestMultipleHeaders` in headers_test.go) requires. -/
theorem c5_duplicate_header_double_join :
    ∃ h1 n1, NewHeaders.Parse ("A: v1\r\n\r\n".toList) = .consumed h1 n1 ∧
    ∃ h2 n2, h1.Parse ("A: v2\r\n\r\n".toList) = .consumed h2 n2 ∧
      h2 = [("a".toList, "v1, v1, v2".toList)] ∧
      h2.Get ("a".toList) ≠ "v1, v2".toList := by
  refine ⟨[("a".toList, "v1".toList)], 7, by decide,
          [("a".toList, "v1, v1, v2".toList)], 7, by decide, by decide, by decide⟩

/-- C8: `parseRequestLine` is not total: on `GET / X\r\n` the three-token
split succeeds, the `&&` validation short-circuits to false on the
upper-case method, and the success path then evaluates `httpParts[1]` on the
one-element split of `X` — an index-out-of-range panic. -/
theorem c8_parseRequestLine_panics :
    parseRequestLine ("GET / X\r\n".toList) = .panicked := by
  decide

/-- C10: `WriteChunkedBody` and `WriteChunkedBodyDone` check no writer-state
precondition and modify no writer state: in every state (including
`notStarted`) they append exactly their chunk-framing bytes to the output
sink and leave `writerState` unchanged. -/
theorem c10_chunked_writes_ignore_state
    (w : response.Writer) (p : Str) (trailers : Headers) :
    (w.WriteChunkedBody p).1.writerState = w.writerState ∧
    (w.WriteChunkedBody p).1.out = w.out ++ natHexChars p.length ++ CRLF ++ p ++ CRLF ∧
    (w.WriteChunkedBodyDone trailers).1.writerState = w.writerState ∧
    (w.WriteChunkedBodyDone trailers).1.out =
      w.out ++ "0".toList ++ CRLF ++
        (if trailers.length > 0 then
          (trailers.map (fun kv => kv.1 ++ [':'] ++ trailers.Get kv.1 ++ CRLF)).flatten
        else []) ++ CRLF := by
  refine ⟨rfl, by simp [response.Writer.WriteChunkedBody], ?_, ?_⟩
  · unfold response.Writer.WriteChunkedBodyDone
    split <;> rfl
  · unfold response.Writer.WriteChunkedBodyDone response.Writer.WriteTrailers
    split <;> simp

/-- C6: the writer state machine is strictly forward — each of
`WriteStatusLine`, `WriteHeaders`, `WriteBody` called outside its required
state returns the out-of-order error carrying the current and expected
state, emits no bytes, and leaves the writer (output and state) unchanged. -/
theorem c6_writer_strictly_forward
    (w : response.Writer) (code : Nat) (hs : Headers) (b : Str) :
    (w.writerState ≠ .writerStateNotStarted →
      w.WriteStatusLine code = (w, some ⟨w.writerState, .writerStateNotStarted⟩)) ∧
    (w.writerState ≠ .writerStateStatusLine →
      w.WriteHeaders hs = (w, some ⟨w.writerState, .writerStateStatusLine⟩)) ∧
    (w.writerState ≠ .writerStateHeaders →
      w.WriteBody b = (w, some ⟨w.writerState, .writerStateHeaders⟩)) := by
  refine ⟨?_, ?_, ?_⟩ <;> intro h <;>
    simp [response.Writer.WriteStatusLine, response.Writer.WriteHeaders,
      response.Writer.WriteBody, response.Writer.isCorrectState, Ne.symm h]

/-- Witness for C6 at concrete writers in wrong states. -/
theorem c6_writer_strictly_forward_witness :
    (response.Writer.WriteStatusLine ⟨[], .writerStateHeaders⟩ 200 =
      (⟨[], .writerStateHeaders⟩, some ⟨.writerStateHeaders, .writerStateNotStarted⟩)) ∧
    (response.Writer.WriteHeaders ⟨[], .writerStateNotStarted⟩ (GetDefaultHeaders 3) =
      (⟨[], .writerStateNotStarted⟩, some ⟨.writerStateNotStarted, .writerStateStatusLine⟩)) ∧
    (response.Writer.WriteBody ⟨[], .writerStateNotStarted⟩ ("x".toList) =
      (⟨[], .writerStateNotStarted⟩, some ⟨.writerStateNotStarted, .writerStateHeaders⟩)) :=
  ⟨(c6_writer_strictly_forward ⟨[], .writerStateHeaders⟩ 200 (GetDefaultHeaders 3) ("x".toList)).1
      (by decide),
   (c6_writer_strictly_forward ⟨[], .writerStateNotStarted⟩ 200 (GetDefaultHeaders 3) ("x".toList)).2.1
      (by decide),
   (c6_writer_strictly_forward ⟨[], .writerStateNotStarted⟩ 200 (GetDefaultHeaders 3) ("x".toList)).2.2
      (by decide)⟩

/-- C2 counterexample: when `RequestFromReader` fails with a structural parse
error (here `BadStartLine`), the loop in `Server.handle` only logs
(`fmt.Println("Error reading request:", err)`) and breaks — the bytes this
iteration writes to the connection are empty, not the `HTTP/1.1 400 ...`
line that `HandlerError.Write` would produce (that method is never called
from `Server.handle`). -/
theorem c2_no_error_response_before_close :
    (handleIteration [] defaultNotFoundHandler (fun _ w _ => w)
        (.parseFailure .badStartLine)) = ([], .closeConn) ∧
    ([] : Str) ≠ HandlerError.Write 400 ("bad start line".toList) := by
  exact ⟨rfl, by decide⟩

/-- C2 amended: on every structural parse error the session writes nothing
to the connection and always decides to close it (every `break` path of
`Server.handle` reaches the single `conn.Close()` after the loop); no
400-class error response is sent. -/
theorem c2_parse_error_closes_silently
    (hs : handler.Handlers)
    (notFoundOut : response.Writer → Request → response.Writer)
    (execOut : HandlerId → response.Writer → Request → response.Writer)
    (e : PErr) :
    handleIteration hs notFoundOut execOut (.parseFailure e) = ([], .closeConn) := by
  rfl

/-- C3: the 405 branch of `Server.handle` is unreachable.  First, the router
never reports "method not allowed": `MatchWithVars` only ever constructs the
`"Empty route when trying to match"` and `"No route match found"` errors, so
the session's string comparison `err.Error() == "Method not allowed"` never
succeeds.  Second, on the concrete table built by
`Handlers.Add("/wakanda", 7)` followed by the `GET()` builder, a POST to
`/wakanda` is not a method-not-allowed error at all: the static branch falls
back to the route's non-nil `HandleFunc` and returns a match, so the session
dispatches to the handler instead of responding 405. -/
theorem c3_method_not_allowed_branch_unreachable :
    (∀ e : MatchErr, matchErrMessage e ≠ "Method not allowed".toList) ∧
    handler.Handlers.Add [] ("/wakanda".toList) 7 =
      some [("/wakanda".toList, ⟨[], some 7⟩)] ∧
    handlersGET [("/wakanda".toList, ⟨[], some 7⟩)] ("/wakanda".toList) =
      [("/wakanda".toList, ⟨[("GET".toList, 7)], some 7⟩)] ∧
    handler.Handlers.MatchWithVars
        [("/wakanda".toList, ⟨[("GET".toList, 7)], some 7⟩)]
        ("/wakanda".toList) ("POST".toList) = .found ⟨7, []⟩ := by
  refine ⟨fun e => ?_, by decide, by decide, by decide⟩
  cases e <;> decide


/-- A decimal digit character produced by `digitChar` is a digit. -/
theorem digitChar_isDigit (d : Nat) (h : d < 10) : isDigitChar (digitChar d) = true := by
  interval_cases d <;> decide

/-- Every character `natCharsAux` emits is a decimal digit. -/
theorem natCharsAux_all_digits (fuel : Nat) : ∀ (n : Nat) (acc : Str),
    acc.all isDigitChar = true → (natCharsAux fuel n acc).all isDigitChar = true := by
  induction fuel with
  | zero => intro n acc h; exact h
  | succ fuel ih =>
    intro n acc h
    have hc : (digitChar (n % 10) :: acc).all isDigitChar = true := by
      simp only [List.all_cons, Bool.and_eq_true]
      exact ⟨digitChar_isDigit _ (Nat.mod_lt n (by omega)), h⟩
    simp only [natCharsAux]
    split
    · exact hc
    · exact ih _ _ hc

/-- `natCharsAux` with positive fuel never returns the empty string. -/
theorem natCharsAux_ne_nil (fuel : Nat) : ∀ (n : Nat) (acc : Str),
    natCharsAux (fuel + 1) n acc ≠ [] := by
  induction fuel with
  | zero =>
    intro n acc
    simp only [natCharsAux]
    split <;> simp
  | succ fuel ih =>
    intro n acc
    simp only [natCharsAux]
    split
    · simp
    · exact ih _ _

/-- An all-digit run always has a value. -/
theorem digitsValGo_isSome (l : Str) : ∀ acc, l.all isDigitChar = true →
    (digitsValGo acc l).isSome = true := by
  induction l with
  | nil => intro acc _; rfl
  | cons c rest ih =>
    intro acc h
    simp only [List.all_cons, Bool.and_eq_true] at h
    simp only [digitsValGo, h.1, if_true]
    exact ih _ h.2

/-- The modelled `strconv.Atoi` succeeds on every non-empty all-digit string. -/
theorem atoi_isSome_of_digits (s : Str) (hne : s ≠ []) (hd : s.all isDigitChar = true) :
    (atoi s).isSome = true := by
  match s, hne with
  | c :: rest, _ =>
    simp only [List.all_cons, Bool.and_eq_true] at hd
    have hplus : c ≠ '+' := by rintro rfl; simp [isDigitChar] at hd
    have hminus : c ≠ '-' := by rintro rfl; simp [isDigitChar] at hd
    unfold atoi
    split
    · rename_i heq; cases heq
    · rename_i heq
      injection heq with h1 _
      exact absurd h1 hplus
    · rename_i heq
      injection heq with h1 _
      exact absurd h1 hminus
    · simp only [Option.isSome_map']
      show (digitsValGo 0 (c :: rest)).isSome = true
      exact digitsValGo_isSome _ 0 (by simp [hd.1, hd.2])

/-- `strconv.Atoi` succeeds on the decimal rendering of every length — so a
default header set always has a content length. -/
theorem atoi_natChars_isSome (n : Nat) : (atoi (natChars n)).isSome = true :=
  atoi_isSome_of_digits _ (natCharsAux_ne_nil n n []) (natCharsAux_all_digits (n + 1) n [] rfl)

/-- `GetDefaultHeaders` stores exactly the three documented entries. -/
theorem GetDefaultHeaders_eq (n : Nat) :
    GetDefaultHeaders n =
      [("content-length".toList, natChars n),
       ("connection".toList, "close".toList),
       ("content-type".toList, "text/plain".toList)] := rfl

/-- C7: for every body `B`, `WriteStatusLine(200)` then
`WriteHeaders(GetDefaultHeaders(len B))` then `WriteBody(B)` all succeed and
produce exactly the status line `HTTP/1.1 200 OK`, a header block that
contains the `content-length:<len B>` line and is terminated by a blank
line, and a body section equal to `B` (followed by the writer's trailing
terminator). -/
theorem c7_roundtrip (B : Str) :
    (NewResponseWriter.WriteStatusLine 200).2 = none ∧
    ((NewResponseWriter.WriteStatusLine 200).1.WriteHeaders
        (GetDefaultHeaders B.length)).2 = none ∧
    (((NewResponseWriter.WriteStatusLine 200).1.WriteHeaders
        (GetDefaultHeaders B.length)).1.WriteBody B).2 = none ∧
    ((((NewResponseWriter.WriteStatusLine 200).1.WriteHeaders
        (GetDefaultHeaders B.length)).1.WriteBody B).1).out =
      "HTTP/1.1 200 OK\r\n".toList ++
      ("content-length:".toList ++ natChars B.length ++ CRLF) ++
      "connection:close\r\n".toList ++ "content-type:text/plain\r\n".toList ++
      CRLF ++ B ++ CRLF := by
  obtain ⟨v, hv⟩ := Option.isSome_iff_exists.mp (atoi_natChars_isSome B.length)
  have h200 : natChars 200 = "200".toList := by decide
  refine ⟨rfl, ?_, ?_, ?_⟩ <;>
  simp [NewResponseWriter, response.Writer.WriteStatusLine,
    response.Writer.WriteHeaders, response.Writer.WriteBody,
    response.Writer.isCorrectState, GetDefaultHeaders_eq,
    Headers.HasContentLength, Headers.Get, assocFind, hv, toLowerStr, CRLF,
    GetStatusReason, h200]

/-- A found CRLF index leaves room for the two terminator bytes. -/
theorem findCRLF_le (l : Str) : ∀ i, findCRLF l = some i → i + 2 ≤ l.length := by
  induction l with
  | nil => intro i h; cases h
  | cons a rest ih =>
    intro i h
    match rest, h with
    | [], h => cases h
    | b :: rest', h =>
      rw [findCRLF] at h
      split at h
      · cases h; simp
      · rw [Option.map_eq_some'] at h
        obtain ⟨j, hj, rfl⟩ := h
        have := ih j hj
        simp at this ⊢
        omega

/-- The first CRLF of a buffer stays the first CRLF of any extension. -/
theorem findCRLF_append (l : Str) : ∀ (e : Str) (i : Nat),
    findCRLF l = some i → findCRLF (l ++ e) = some i := by
  induction l with
  | nil => intro e i h; cases h
  | cons a rest ih =>
    intro e i h
    match rest, h with
    | [], h => cases h
    | b :: rest', h =>
      rw [findCRLF] at h
      rw [List.cons_append, List.cons_append, findCRLF]
      split at h <;> rename_i hcr
      · cases h; simp [hcr]
      · rw [if_neg hcr]
        rw [Option.map_eq_some'] at h
        obtain ⟨j, hj, rfl⟩ := h
        have := ih e j hj
        rw [List.cons_append] at this
        simp [this]

theorem parseRequestLine_read (rest : Str) (rl : RequestLine) (n : Nat)
    (h : parseRequestLine rest = .ok rl n) :
    ∃ idx, findCRLF rest = some idx ∧ n = idx + 2 := by
  unfold parseRequestLine at h
  split at h
  · cases h
  · rename_i idx hidx
    refine ⟨idx, hidx, ?_⟩
    dsimp only at h
    split at h
    · split at h
      · split at h
        · cases h
        · split at h
          · cases h
          · split at h
            · cases h
            · cases h; rfl
      · split at h
        · cases h
        · cases h; rfl
    · cases h

theorem HeadersParse_sectionDone_read (hd : Headers) (rest : Str)
    (h : hd.Parse rest = .sectionDone) :
    ∃ idx, findCRLF rest = some idx ∧ rest.take 2 = CRLF := by
  unfold Headers.Parse at h
  split at h
  · cases h
  · rename_i idx hidx
    split at h
    · exact ⟨idx, hidx, by assumption⟩
    · exfalso
      dsimp only at h
      split at h
      · cases h
      · split at h
        · cases h
        · split at h
          · cases h
          · split at h <;> cases h

theorem HeadersParse_consumed_read (hd : Headers) (rest : Str) (h' : Headers) (n : Nat)
    (h : hd.Parse rest = .consumed h' n) :
    ∃ idx, findCRLF rest = some idx ∧ n = idx + 2 := by
  unfold Headers.Parse at h
  split at h
  · cases h
  · rename_i idx hidx
    split at h
    · cases h
    · refine ⟨idx, hidx, ?_⟩
      have hlen : (rest.take idx).length = idx := by
        have := findCRLF_le rest idx hidx
        simp [List.length_take]
        omega
      dsimp only at h
      split at h
      · cases h
      · split at h
        · cases h
        · split at h
          · cases h
          · split at h
            · cases h
            · cases h
              rw [hlen]

theorem parseBody_cases (r : Request) (data : Str) :
    (r.headers.HasContentLength.2 = false →
      r.parseBody data =
        .ok 0 (if r.headers.Get ("content-length".toList) = []
               then { r with state := .parserDone } else r)) ∧
    (∀ cle, r.headers.HasContentLength = (cle, true) →
      r.parseBody data =
        if cle ≠ (data.length : Int) then .mismatch
        else .ok data.length
          { (if r.headers.Get ("content-length".toList) = []
             then { r with state := .parserDone } else r) with body := data }) := by
  constructor
  · intro hcl
    unfold Request.parseBody
    have : (if r.headers.Get ("content-length".toList) = []
            then { r with state := parserState.parserDone } else r).headers = r.headers := by
      split <;> rfl
    dsimp only
    split
    · rfl
    · rename_i cle b heq
      rw [this] at heq
      rw [heq] at hcl
      cases hcl
  · intro cle hcl
    unfold Request.parseBody
    have : (if r.headers.Get ("content-length".toList) = []
            then { r with state := parserState.parserDone } else r).headers = r.headers := by
      split <;> rfl
    dsimp only
    split
    · rename_i b heq
      rw [this, hcl] at heq
      cases heq
    · rename_i cle' b heq
      rw [this, hcl] at heq
      cases heq
      rfl

theorem parseStep_bounds (r : Request) (rest : Str) (n : Nat) (r' : Request)
    (h : parseStep r rest = .cont n r') : 1 ≤ n ∧ n ≤ rest.length := by
  unfold parseStep at h
  split at h
  · -- init
    split at h
    · cases h
    · cases h
    · cases h
    · rename_i rl m hrl
      cases h
      obtain ⟨idx, hidx, hn⟩ := parseRequestLine_read rest rl n hrl
      have := findCRLF_le rest idx hidx
      omega
  · -- headers
    split at h
    · cases h
    · cases h
    · rename_i hp
      cases h
      obtain ⟨idx, hidx, _⟩ := HeadersParse_sectionDone_read r.headers rest hp
      have := findCRLF_le rest idx hidx
      omega
    · rename_i h' m hp
      cases h
      obtain ⟨idx, hidx, hn⟩ := HeadersParse_consumed_read r.headers rest h' n hp
      have := findCRLF_le rest idx hidx
      omega
  · -- body
    split at h
    · cases h
    · rename_i m r1 hb
      split at h
      · cases h
      · rename_i hm
        cases h
        unfold Request.parseBody at hb
        dsimp only at hb
        split at hb
        · cases hb; omega
        · split at hb
          · cases hb
          · cases hb
            omega
  · cases h

theorem parseLoopF_succ (fuel : Nat) (r : Request) (rest : Str) :
    parseLoopF (fuel + 1) r rest =
      match parseStep r rest with
      | .brk r' => .ok 0 r'
      | .fail e => .fail e
      | .panicked => .panicked
      | .cont n r' =>
        match parseLoopF fuel r' (rest.drop n) with
        | .ok m r'' => .ok (n + m) r''
        | other => other := rfl

theorem parseLoopF_irrel (f1 : Nat) : ∀ (f2 : Nat) (r : Request) (rest : Str),
    rest.length < f1 → rest.length < f2 →
    parseLoopF f1 r rest = parseLoopF f2 r rest := by
  induction f1 with
  | zero => intro f2 r rest h1 _; omega
  | succ f1 ih =>
    intro f2 r rest h1 h2
    match f2, h2 with
    | f2 + 1, h2 =>
      rw [parseLoopF_succ, parseLoopF_succ]
      cases hstep : parseStep r rest with
      | brk r' => rfl
      | fail e => rfl
      | panicked => rfl
      | cont n r' =>
        have hb := parseStep_bounds r rest n r' hstep
        have hdrop : (rest.drop n).length = rest.length - n := by simp
        dsimp only
        rw [ih f2 r' (rest.drop n) (by omega) (by omega)]

theorem parse_eq (r : Request) (rest : Str) :
    r.parse rest =
      match parseStep r rest with
      | .brk r' => .ok 0 r'
      | .fail e => .fail e
      | .panicked => .panicked
      | .cont n r' =>
        match r'.parse (rest.drop n) with
        | .ok m r'' => .ok (n + m) r''
        | other => other := by
  show parseLoopF (rest.length + 1) r rest = _
  rw [parseLoopF_succ]
  cases hstep : parseStep r rest with
  | brk r' => rfl
  | fail e => rfl
  | panicked => rfl
  | cont n r' =>
    have hb := parseStep_bounds r rest n r' hstep
    have hdrop : (rest.drop n).length = rest.length - n := by simp
    show (match parseLoopF rest.length r' (rest.drop n) with
          | PRes.ok m r'' => PRes.ok (n + m) r''
          | other => other) = _
    rw [parseLoopF_irrel rest.length ((rest.drop n).length + 1) r' (rest.drop n)
      (by omega) (by omega)]
    rfl

theorem parse_ne_fuelOut (len : Nat) : ∀ (rest : Str) (r : Request), rest.length = len →
    r.parse rest ≠ .fuelOut := by
  induction len using Nat.strong_induction_on with
  | _ len ih =>
    intro rest r hlen
    rw [parse_eq]
    cases hstep : parseStep r rest with
    | brk r' => simp
    | fail e => simp
    | panicked => simp
    | cont n r' =>
      have hb := parseStep_bounds r rest n r' hstep
      have hdrop : (rest.drop n).length = rest.length - n := by simp
      dsimp only
      have hne := ih (rest.length - n) (by omega) (rest.drop n) r' hdrop
      cases hp : r'.parse (rest.drop n) with
      | ok m r'' => simp
      | fail e => simp
      | panicked => simp
      | fuelOut => exact absurd hp hne

theorem parse_brk (r r' : Request) (rest : Str) (h : parseStep r rest = .brk r') :
    r.parse rest = .ok 0 r' := by
  rw [parse_eq, h]

theorem parse_fail (r : Request) (e : PErr) (rest : Str) (h : parseStep r rest = .fail e) :
    r.parse rest = .fail e := by
  rw [parse_eq, h]

theorem parseStep_done (r : Request) (rest : Str) (h : r.state = .parserDone) :
    parseStep r rest = .brk r := by
  unfold parseStep
  rw [h]

theorem parse_done (r : Request) (rest : Str) (h : r.state = .parserDone) :
    r.parse rest = .ok 0 r :=
  parse_brk r r rest (parseStep_done r rest h)

theorem parseStep_brk_idem (r r' : Request) (rest : Str)
    (h : parseStep r rest = .brk r') : parseStep r' rest = .brk r' := by
  have h0 := h
  unfold parseStep at h
  split at h <;> rename_i hs
  · -- init: only the incomplete branch breaks, with r' = r
    cases hrl : parseRequestLine rest <;> rw [hrl] at h <;> cases h
    exact h0
  · -- headers: only the incomplete branch breaks, with r' = r
    cases hp : Headers.Parse r.headers rest <;> rw [hp] at h <;> cases h
    exact h0
  · -- body
    obtain ⟨rl, st, hd, bd, vs, ps⟩ := r
    simp only at hs
    subst hs
    cases hb : Request.parseBody ⟨rl, .parserBody, hd, bd, vs, ps⟩ rest <;>
      rw [hb] at h <;> dsimp only at h
    case mismatch => cases h
    case ok n r1 =>
      by_cases hn : n = 0
      · rw [if_pos hn] at h
        cases h
        subst hn
        unfold Request.parseBody at hb
        dsimp only at hb
        by_cases hclv : Headers.Get hd ("content-length".toList) = [] <;>
          simp only [hclv, if_true, if_false, reduceIte] at hb
        · -- content-length header empty: the break sets state to done
          split at hb <;> rename_i y hcl
          · cases hb
            exact parseStep_done _ rest rfl
          · rename_i clength
            split at hb <;> rename_i hlen
            · cases hb
            · injection hb with h1 h2
              have hnil : rest = [] := List.length_eq_zero.mp h1
              subst hnil
              subst h2
              exact parseStep_done _ [] rfl
        · -- content-length header non-empty
          split at hb <;> rename_i y hcl
          · cases hb
            exact h0
          · rename_i clength
            split at hb <;> rename_i hlen
            · cases hb
            · injection hb with h1 h2
              have hnil : rest = [] := List.length_eq_zero.mp h1
              subst hnil
              subst h2
              have hcl0 : y = 0 := by simpa using hlen
              subst hcl0
              unfold parseStep Request.parseBody
              dsimp only
              simp only [hclv, reduceIte, hcl]
              simp
      · rw [if_neg hn] at h
        cases h
  · -- done: r' = r
    cases h
    exact h0

theorem parse_stop (len : Nat) : ∀ (rest : Str) (r : Request) (m : Nat) (r' : Request),
    rest.length = len → r.parse rest = .ok m r' →
    r'.parse (rest.drop m) = .ok 0 r' := by
  induction len using Nat.strong_induction_on with
  | _ len ih =>
    intro rest r m r' hlen hp
    rw [parse_eq] at hp
    cases hstep : parseStep r rest <;> rw [hstep] at hp <;> dsimp only at hp
    case brk r0 =>
      cases hp
      rw [List.drop_zero]
      exact parse_brk _ _ _ (parseStep_brk_idem r r' rest hstep)
    case fail e => cases hp
    case panicked => cases hp
    case cont n r1 =>
      have hb := parseStep_bounds r rest n r1 hstep
      cases hq : r1.parse (rest.drop n) with
      | fail e => rw [hq] at hp; cases hp
      | panicked => rw [hq] at hp; cases hp
      | fuelOut => rw [hq] at hp; cases hp
      | ok m1 r1' =>
        rw [hq] at hp
        cases hp
        have hdrop : (rest.drop n).length = rest.length - n := by simp
        have := ih (rest.length - n) (by omega) (rest.drop n) r1 m1 r' hdrop hq
        rw [List.drop_drop] at this
        exact this

theorem findCRLF_replicate (n : Nat) : findCRLF (List.replicate n 'a') = none := by
  induction n with
  | zero => rfl
  | succ n ih =>
    cases n with
    | zero => rfl
    | succ m =>
      rw [List.replicate_succ, List.replicate_succ, findCRLF]
      rw [if_neg (by decide)]
      rw [← List.replicate_succ, ih]
      rfl

theorem parse_replicate (n : Nat) :
    newRequest.parse (List.replicate n 'a') = .ok 0 newRequest := by
  apply parse_brk
  unfold parseStep newRequest
  dsimp only
  unfold parseRequestLine
  rw [findCRLF_replicate]

theorem rfr_stuck (fuel : Nat) :
    rfr fuel (List.replicate 6 'a') (List.replicate 1024 'a') newRequest = none := by
  induction fuel with
  | zero => rfl
  | succ fuel ih =>
    rw [rfr]
    rw [if_neg (by decide)]
    rw [if_neg (by decide)]
    have hspace : 1024 - (List.replicate 1024 'a').length = 0 := by
      rw [List.length_replicate]
    rw [hspace]
    simp only [Nat.zero_min, List.take_zero, List.append_nil, List.drop_zero]
    rw [parse_replicate]
    dsimp only
    exact ih

theorem rfr_1030_none (fuel : Nat) :
    rfr fuel (List.replicate 1030 'a') [] newRequest = none := by
  cases fuel with
  | zero => rfl
  | succ fuel =>
    rw [rfr]
    rw [if_neg (by decide)]
    rw [if_neg (by decide)]
    dsimp only
    have h2 : min (1024 - List.length ([] : Str)) (List.replicate 1030 'a').length = 1024 := by
      rw [List.length_replicate, List.length_nil]
      rfl
    rw [h2]
    have h3 : (List.replicate 1030 'a').take 1024 = List.replicate 1024 'a' := by
      rw [List.take_replicate]
      rfl
    have h4 : (List.replicate 1030 'a').drop 1024 = List.replicate 6 'a' := by
      rw [List.drop_replicate]
    rw [h3, h4, List.nil_append, parse_replicate]
    dsimp only
    rw [List.drop_zero]
    exact rfr_stuck fuel

/-- C9 counterexample: on a stream of 1030 `'a'` bytes the read-and-parse
loop never terminates.  The first iteration fills the whole 1024-byte buffer
without finding a CRLF; every later iteration reads 0 bytes (the buffer is
full, the stream is not at EOF) and parses 0 bytes, so the loop state
repeats forever: no iteration count makes `RequestFromReader` return. -/
theorem c9_loops_forever_counterexample :
    ¬ ∃ (fuel : Nat) (res : RfrRes),
      RequestFromReader fuel (List.replicate 1030 'a') = some res := by
  rintro ⟨fuel, res, h⟩
  rw [RequestFromReader, rfr_1030_none] at h
  cases h

/-- C9 amended: for every input stream of at most 1024 bytes,
`RequestFromReader` terminates within 3 loop iterations (with a completed
request, a parse error, or the modelled panic); the non-termination of the
claim arises only when a logical unit overflows the fixed buffer. -/
theorem c9_terminates_within_buffer (input : Str) (h : input.length ≤ 1024) :
    ∃ res, RequestFromReader 3 input = some res := by
  match input with
  | [] =>
    exact ⟨.ok { newRequest with state := .parserDone }, by decide⟩
  | c :: input' =>
    rw [RequestFromReader, rfr]
    rw [if_neg (by decide)]
    rw [if_neg (by simp)]
    dsimp only
    have hn : min (1024 - List.length ([] : Str)) (c :: input').length =
        (c :: input').length := by
      rw [List.length_nil]
      omega
    rw [hn, List.take_length, List.nil_append, List.drop_length]
    cases hp : newRequest.parse (c :: input') with
    | fail e => exact ⟨.fail e, rfl⟩
    | panicked => exact ⟨.panicked, rfl⟩
    | fuelOut => exact ⟨.panicked, rfl⟩
    | ok readN req2 =>
      dsimp only
      by_cases h2 : req2.done
      · exact ⟨.ok req2, by rw [rfr, if_pos h2]⟩
      · rw [rfr, if_neg h2, if_pos (by rfl)]
        dsimp only
        rw [parse_done ({ req2 with state := parserState.parserDone })
          (List.drop readN (c :: input')) rfl]
        dsimp only
        rw [List.drop_zero, rfr, if_pos (by rfl)]
        exact ⟨_, rfl⟩

/-- Witness for the amended C9 at a concrete 18-byte request. -/
theorem c9_terminates_within_buffer_witness :
    ∃ res, RequestFromReader 3 ("GET / HTTP/1.1\r\n\r\n".toList) = some res :=
  c9_terminates_within_buffer ("GET / HTTP/1.1\r\n\r\n".toList) (by decide)

theorem parseRequestLine_append (A e : Str) (h : parseRequestLine A ≠ .incomplete) :
    parseRequestLine (A ++ e) = parseRequestLine A := by
  unfold parseRequestLine at h ⊢
  cases hf : findCRLF A with
  | none => rw [hf] at h; exact absurd rfl h
  | some idx =>
    have hle := findCRLF_le A idx hf
    rw [findCRLF_append A e idx hf]
    dsimp only
    rw [List.take_append_of_le_length (by omega)]

theorem HeadersParse_append (hd : Headers) (A e : Str) (h : hd.Parse A ≠ .incomplete) :
    hd.Parse (A ++ e) = hd.Parse A := by
  unfold Headers.Parse at h ⊢
  cases hf : findCRLF A with
  | none => rw [hf] at h; exact absurd rfl h
  | some idx =>
    have hle := findCRLF_le A idx hf
    rw [findCRLF_append A e idx hf]
    dsimp only
    rw [List.take_append_of_le_length (show 2 ≤ A.length by omega),
      List.take_append_of_le_length (show idx ≤ A.length by omega)]

theorem parse_panic (r : Request) (rest : Str) (h : parseStep r rest = .panicked) :
    r.parse rest = .panicked := by
  rw [parse_eq, h]

theorem noBody_hasCL (h : Headers) (hnb : noBody h) : h.HasContentLength = (0, false) := by
  unfold Headers.HasContentLength
  rw [hnb.1, hnb.2]
  rfl

theorem parseStep_body_noCL (req : Request) (X : Str) (hs : req.state = .parserBody)
    (hcl : req.headers.HasContentLength.2 = false) :
    parseStep req X =
      .brk (if req.headers.Get ("content-length".toList) = []
            then { req with state := .parserDone } else req) := by
  obtain ⟨rl, st, hd, bd, vs, ps⟩ := req
  simp only at hs
  subst hs
  unfold parseStep Request.parseBody
  dsimp only
  by_cases hclv : Headers.Get hd ("content-length".toList) = [] <;>
    simp only [hclv, reduceIte] <;>
    simp only at hcl
  · cases hHCL : Headers.HasContentLength hd with
    | mk y b =>
      rw [hHCL] at hcl
      simp only at hcl
      subst hcl
      rfl
  · cases hHCL : Headers.HasContentLength hd with
    | mk y b =>
      rw [hHCL] at hcl
      simp only at hcl
      subst hcl
      rfl

theorem parseStep_body_shape (req : Request) (X : Str) (hs : req.state = .parserBody) :
    (∃ x, parseStep req X = .brk x ∧ x.headers = req.headers) ∨
    (∃ n x, parseStep req X = .cont n x ∧ x.headers = req.headers ∧
      x.state = .parserDone) ∨
    parseStep req X = .fail .bodyLengthMismatch := by
  obtain ⟨rl, st, hd, bd, vs, ps⟩ := req
  simp only at hs
  subst hs
  unfold parseStep Request.parseBody
  dsimp only
  by_cases hclv : Headers.Get hd ("content-length".toList) = [] <;>
    simp only [hclv, reduceIte] <;>
    (cases hHCL : Headers.HasContentLength hd with
      | mk y b =>
        cases b
        · exact .inl ⟨_, by rfl, rfl⟩
        · dsimp only
          by_cases hlen : y ≠ (X.length : Int)
          · rw [if_pos hlen]
            exact .inr (.inr rfl)
          · rw [if_neg hlen]
            dsimp only
            by_cases hX : X.length = 0
            · rw [if_pos hX]
              exact .inl ⟨_, rfl, rfl⟩
            · rw [if_neg hX]
              exact .inr (.inl ⟨_, _, rfl, rfl, rfl⟩))

theorem parse_body_R_headers (req : Request) (X : Str) (K : Nat) (R : Request)
    (hs : req.state = .parserBody) (hp : req.parse X = .ok K R) :
    R.headers = req.headers := by
  rcases parseStep_body_shape req X hs with ⟨x, hstep, hhd⟩ | ⟨n, x, hstep, hhd, hxs⟩ | hstep
  · rw [parse_brk _ _ _ hstep] at hp
    cases hp
    exact hhd
  · rw [parse_eq, hstep] at hp
    dsimp only at hp
    rw [parse_done x _ hxs] at hp
    dsimp only at hp
    cases hp
    exact hhd
  · rw [parse_fail _ _ _ hstep] at hp
    cases hp

theorem parseStep_ext (req : Request) (A e : Str)
    (hs : req.state = .parserInit ∨ req.state = .parserHeaders)
    (hnb2 : ∀ x, parseStep req A ≠ .brk x) :
    parseStep req (A ++ e) = parseStep req A := by
  rcases hs with hs | hs
  · unfold parseStep at hnb2 ⊢
    rw [hs] at hnb2 ⊢
    dsimp only at hnb2 ⊢
    have hni : parseRequestLine A ≠ .incomplete := by
      intro hc
      exact hnb2 req (by rw [hc])
    rw [parseRequestLine_append A e hni]
  · unfold parseStep at hnb2 ⊢
    rw [hs] at hnb2 ⊢
    dsimp only at hnb2 ⊢
    have hni : req.headers.Parse A ≠ .incomplete := by
      intro hc
      exact hnb2 req (by rw [hc])
    rw [HeadersParse_append req.headers A e hni]

theorem parseStep_brk_nonbody (req : Request) (A : Str) (x : Request)
    (hs : req.state ≠ .parserBody) (h : parseStep req A = .brk x) : x = req := by
  unfold parseStep at h
  cases hsx : req.state <;> rw [hsx] at h <;> dsimp only at h
  · cases hrl : parseRequestLine A <;> rw [hrl] at h <;> cases h <;> rfl
  · cases h; rfl
  · cases hp : req.headers.Parse A <;> rw [hp] at h <;> cases h <;> rfl
  · exact absurd hsx hs

theorem parse_prefix (len : Nat) : ∀ (A e : Str) (req : Request) (K : Nat) (R : Request),
    (A ++ e).length = len →
    req.parse (A ++ e) = .ok K R →
    noBody R.headers →
    ∃ k r, req.parse A = .ok k r ∧ k ≤ K ∧
      r.parse (A.drop k ++ e) = .ok (K - k) R := by
  induction len using Nat.strong_induction_on with
  | _ len ih =>
    intro A e req K R hlen hp hnb
    by_cases hbody : req.state = .parserBody
    · -- body state: with no body declared the step is buffer-independent
      have hRhd : R.headers = req.headers := parse_body_R_headers req (A ++ e) K R hbody hp
      have hnbreq : noBody req.headers := by rw [← hRhd]; exact hnb
      have hHCL : req.headers.HasContentLength = (0, false) := noBody_hasCL _ hnbreq
      have hstep : ∀ X, parseStep req X =
          .brk (if req.headers.Get ("content-length".toList) = []
                then { req with state := .parserDone } else req) :=
        fun X => parseStep_body_noCL req X hbody (by rw [hHCL])
      rw [if_pos hnbreq.1] at hstep
      have hpB := parse_brk _ _ (A ++ e) (hstep (A ++ e))
      rw [hp] at hpB
      injection hpB with hK hR
      refine ⟨0, R, ?_, by omega, ?_⟩
      · rw [parse_brk _ _ A (hstep A), hR]
      · rw [List.drop_zero]
        rw [parse_done R _ (by rw [hR])]
        rw [hK]
    · -- init, headers or done state
      cases hstep : parseStep req A with
      | brk x =>
        have hx : x = req := parseStep_brk_nonbody req A x hbody hstep
        refine ⟨0, req, ?_, by omega, ?_⟩
        · have hbk := parse_brk _ _ A hstep
          rw [hx] at hbk
          exact hbk
        · rw [List.drop_zero, Nat.sub_zero]
          exact hp
      | fail e' =>
        exfalso
        have hs2 : req.state = .parserInit ∨ req.state = .parserHeaders := by
          cases hsx : req.state
          · exact .inl rfl
          · rw [parseStep_done req A hsx] at hstep; cases hstep
          · exact .inr rfl
          · exact absurd hsx hbody
        have hstepB := parseStep_ext req A e hs2 (fun x hc => by rw [hstep] at hc; cases hc)
        rw [hstep] at hstepB
        rw [parse_fail _ _ _ hstepB] at hp
        cases hp
      | panicked =>
        exfalso
        have hs2 : req.state = .parserInit ∨ req.state = .parserHeaders := by
          cases hsx : req.state
          · exact .inl rfl
          · rw [parseStep_done req A hsx] at hstep; cases hstep
          · exact .inr rfl
          · exact absurd hsx hbody
        have hstepB := parseStep_ext req A e hs2 (fun x hc => by rw [hstep] at hc; cases hc)
        rw [hstep] at hstepB
        rw [parse_panic _ _ hstepB] at hp
        cases hp
      | cont n r1 =>
        have hs2 : req.state = .parserInit ∨ req.state = .parserHeaders := by
          cases hsx : req.state
          · exact .inl rfl
          · rw [parseStep_done req A hsx] at hstep; cases hstep
          · exact .inr rfl
          · exact absurd hsx hbody
        have hstepB := parseStep_ext req A e hs2 (fun x hc => by rw [hstep] at hc; cases hc)
        rw [hstep] at hstepB
        have hb := parseStep_bounds req A n r1 hstep
        rw [parse_eq, hstepB] at hp
        dsimp only at hp
        cases hq : r1.parse ((A ++ e).drop n) with
        | fail e' => rw [hq] at hp; cases hp
        | panicked => rw [hq] at hp; cases hp
        | fuelOut => rw [hq] at hp; cases hp
        | ok m R' =>
          rw [hq] at hp
          cases hp
          rw [List.drop_append_of_le_length hb.2] at hq
          have hlt : (A.drop n ++ e).length < len := by
            have : (A ++ e).length = A.length + e.length := by simp
            have h2 : (A.drop n ++ e).length = A.length - n + e.length := by simp
            omega
          obtain ⟨k', r', h1, h2, h3⟩ :=
            ih _ hlt (A.drop n) e r1 m R rfl hq hnb
          refine ⟨n + k', r', ?_, by omega, ?_⟩
          · rw [parse_eq, hstep]
            dsimp only
            rw [h1]
          · have hdd : A.drop (n + k') = (A.drop n).drop k' := by
              rw [List.drop_drop, Nat.add_comm]
            rw [hdd]
            have hKk : n + m - (n + k') = m - k' := by omega
            rw [hKk]
            exact h3

theorem feedChunks_inv (chunks : List Str) :
    ∀ (req : Request) (pending : Str) (K : Nat) (R : Request),
    req.parse (pending ++ chunks.flatten) = .ok K R →
    req.parse pending = .ok 0 req →
    noBody R.headers →
    ∃ pending', feedChunks chunks req pending = .ok R pending' := by
  induction chunks with
  | nil =>
    intro req pending K R hp hstuck hnb
    rw [List.flatten_nil, List.append_nil, hstuck] at hp
    injection hp with hK hR
    exact ⟨pending, by rw [feedChunks, ← hR]⟩
  | cons c cs ihc =>
    intro req pending K R hp hstuck hnb
    rw [List.flatten_cons, ← List.append_assoc] at hp
    obtain ⟨k, r, h1, h2, h3⟩ :=
      parse_prefix ((pending ++ c) ++ cs.flatten).length (pending ++ c) cs.flatten req K R
        rfl hp hnb
    rw [feedChunks, h1]
    exact ihc r ((pending ++ c).drop k) (K - k) R h3
      (parse_stop (pending ++ c).length (pending ++ c) req k r rfl h1) hnb

/-- C1 amended: chunk-size independence holds for bodyless requests.  For
every chunk decomposition of a byte sequence that `Request.parse` completes
in one call into a request whose headers declare neither a content-length nor
a transfer-encoding, delivering the chunks one `parse` call at a time
(re-offering unconsumed bytes) reaches exactly the same Request — request
line, headers, query parameters, body and state included.  (For requests
with a declared body the property fails: see the counterexample.) -/
theorem c1_chunk_independence_bodyless (chunks : List Str) (K : Nat) (R : Request)
    (hp : newRequest.parse chunks.flatten = .ok K R)
    (hdone : R.state = .parserDone)
    (hnb : noBody R.headers) :
    ∃ pending, feedChunks chunks newRequest [] = .ok R pending :=
  feedChunks_inv chunks newRequest [] K R (by rw [List.nil_append]; exact hp)
    (by rfl) hnb

/-- Witness for the amended C1: a 31-byte GET request with a query string,
delivered one byte per parse call, ends in the same Request as the
monolithic parse. -/
theorem c1_chunk_independence_bodyless_witness :
    ∃ pending,
      feedChunks (("GET /a?x=1 HTTP/1.1\r\nhost:x\r\n\r\n".toList).map (fun c => [c]))
        newRequest [] =
      .ok ⟨⟨"1.1".toList, "/a?x=1".toList, "GET".toList⟩, .parserDone,
           [("host".toList, "x".toList)], [], [], [("x".toList, "1".toList)]⟩ pending :=
  c1_chunk_independence_bodyless _ 31 _ (by decide) (by decide) ⟨by decide, by decide⟩

/-- C1 counterexample: the same byte sequence containing a declared body
parses to a complete Request in one call, but delivered in two chunks (the
second chunk holding only the final body byte) the incremental loop fails
with the content-length mismatch error instead of producing that Request:
`parseBody` demands exact equality between the declared length and the bytes
currently buffered. -/
theorem c1_chunked_body_fails :
    (newRequest.parse ("POST / HTTP/1.1\r\ncontent-length:5\r\n\r\nhello".toList) =
      .ok 42 ⟨⟨"1.1".toList, "/".toList, "POST".toList⟩, .parserDone,
              [("content-length".toList, "5".toList)], "hello".toList, [], []⟩) ∧
    (("POST / HTTP/1.1\r\ncontent-length:5\r\n\r\nhello".toList.take 41) ++
      ("POST / HTTP/1.1\r\ncontent-length:5\r\n\r\nhello".toList.drop 41) =
      "POST / HTTP/1.1\r\ncontent-length:5\r\n\r\nhello".toList) ∧
    feedChunks ["POST / HTTP/1.1\r\ncontent-length:5\r\n\r\nhello".toList.take 41,
        "POST / HTTP/1.1\r\ncontent-length:5\r\n\r\nhello".toList.drop 41]
      newRequest [] = .fail .bodyLengthMismatch := by
  refine ⟨by decide, by decide, by decide⟩
